import Mathlib

/-!
Shallow embedding of the session/workflow core of `src/server.py`
(mcp-web-automation-server): the in-memory `TabManager` registry, the
registered tool handlers, and the `run_workflow` executor, together with
proofs of the specification's claims about them.

Modelling conventions:
* Python dicts holding the tab table are modelled as insertion-ordered
  association lists with unique keys (Python 3.7+ dict semantics).
* `MCPError(msg)` is modelled as `Except.error msg`; each handler is a
  function `... → TabManager → Except String (Value × TabManager)`.
  Every handler in the source either raises before mutating the shared
  `TAB_MANAGER` or completes all its mutations, so returning the
  unchanged state on `Except.error` is faithful.
* Python truthiness on optional strings (`if not tab_id`, `url or ...`)
  is modelled by `strFalsy` (`None` and `""` are falsy).
-/

namespace WebAuto

/-! ### Decimal numerals: `Nat.repr` is injective.

Tab identifiers are the strings `f"tab-{counter}"`; distinctness of the
identifiers reduces to injectivity of the decimal printer, proved here by
a round trip through the positional value of the digit list. -/

/-- Numeric value of a decimal digit character. -/
def charVal (c : Char) : Nat := c.toNat - 48

/-- Positional (base-10, most significant first) value of a digit list. -/
def digitsVal : List Char → Nat
  | [] => 0
  | c :: cs => charVal c * 10 ^ cs.length + digitsVal cs

theorem charVal_digitChar : ∀ m, m < 10 → charVal (Nat.digitChar m) = m := by
  decide

theorem toDigitsCore_append (f : Nat) :
    ∀ (n : Nat) (ds : List Char),
      Nat.toDigitsCore 10 f n ds = Nat.toDigitsCore 10 f n [] ++ ds := by
  induction f with
  | zero => intro n ds; simp [Nat.toDigitsCore]
  | succ f ih =>
    intro n ds
    simp only [Nat.toDigitsCore]
    by_cases h : n / 10 = 0
    · simp [h]
    · simp only [h, if_false]
      rw [ih (n / 10) (Nat.digitChar (n % 10) :: ds),
        ih (n / 10) [Nat.digitChar (n % 10)], List.append_assoc]
      rfl

theorem digitsVal_append (cs : List Char) (c : Char) :
    digitsVal (cs ++ [c]) = 10 * digitsVal cs + charVal c := by
  induction cs with
  | nil => simp [digitsVal]
  | cons c' cs ih =>
    simp only [List.cons_append, digitsVal, List.append_eq]
    rw [ih, List.length_append]
    simp only [List.length_cons, List.length_nil, pow_succ, pow_zero]
    ring

theorem digitsVal_toDigitsCore (f : Nat) :
    ∀ n : Nat, 0 < f → n < 10 ^ f →
      digitsVal (Nat.toDigitsCore 10 f n []) = n := by
  induction f with
  | zero => intro n h; omega
  | succ f ih =>
    intro n _ hn
    simp only [Nat.toDigitsCore]
    by_cases h : n / 10 = 0
    · have hn10 : n < 10 := by omega
      have hm : n % 10 = n := Nat.mod_eq_of_lt hn10
      simp [h, digitsVal, hm, charVal_digitChar n hn10]
    · simp only [h, if_false]
      rw [toDigitsCore_append, digitsVal_append]
      have hf : 0 < f := by
        rcases Nat.eq_zero_or_pos f with hf0 | hf0
        · subst hf0; simp at hn; omega
        · exact hf0
      have hdiv : n / 10 < 10 ^ f := by
        rw [Nat.div_lt_iff_lt_mul (by norm_num)]
        calc n < 10 ^ (f + 1) := hn
          _ = 10 ^ f * 10 := by rw [pow_succ]
      rw [ih (n / 10) hf hdiv,
        charVal_digitChar (n % 10) (Nat.mod_lt n (by norm_num))]
      omega

theorem digitsVal_toDigits (n : Nat) : digitsVal (Nat.toDigits 10 n) = n := by
  unfold Nat.toDigits
  refine digitsVal_toDigitsCore (n + 1) n (Nat.succ_pos n) ?_
  calc n < 10 ^ n := Nat.lt_pow_self (by norm_num) n
    _ ≤ 10 ^ (n + 1) := Nat.pow_le_pow_right (by norm_num) (Nat.le_succ n)

theorem repr_injective : Function.Injective Nat.repr := by
  intro m n h
  have hdata : Nat.toDigits 10 m = Nat.toDigits 10 n := by
    have := congrArg String.data h
    simpa [Nat.repr, List.asString] using this
  calc m = digitsVal (Nat.toDigits 10 m) := (digitsVal_toDigits m).symm
    _ = digitsVal (Nat.toDigits 10 n) := by rw [hdata]
    _ = n := digitsVal_toDigits n

/-! ### Tab identifiers -/

/-- `f"tab-{n}"` (src/server.py line 23). -/
def tabId (n : Nat) : String := "tab-" ++ Nat.repr n

theorem tabId_injective : Function.Injective tabId := by
  intro m n h
  apply repr_injective
  apply String.ext
  have := congrArg String.data h
  simpa [tabId, String.data_append] using this

/-! ### Data model -/

/-- JSON-like values appearing in tool results. -/
inductive Value where
  | str : String → Value
  | nat : Nat → Value
  | bool : Bool → Value
  | vlist : List Value → Value
  | dict : List (String × Value) → Value

/-- One tab's state: the dict
`{"url": ..., "history": [...], "data": {}}` (src/server.py line 24).
The `data` sub-dict only ever receives the key `"forms"` (line 65), so it
is modelled by the list stored under that key. -/
structure Tab where
  url : String
  history : List String
  forms : List (List (String × String))

/-- `TabManager` (src/server.py lines 16-41): insertion-ordered dict of
tabs plus the monotone counter. -/
structure TabManager where
  tabs : List (String × Tab)
  counter : Nat

/-- The freshly constructed manager `TabManager()` (src/server.py line 43). -/
def TabManager.init : TabManager := ⟨[], 0⟩

/-- Python dict assignment `d[k] = v`: replace in place if the key is
present, else append (insertion order preserved). -/
def dictInsert (k : String) (v : Tab) : List (String × Tab) → List (String × Tab)
  | [] => [(k, v)]
  | p :: rest => if p.1 = k then (k, v) :: rest else p :: dictInsert k v rest

/-- Python `del d[k]` (keys are unique, so removing the first match). -/
def dictRemove (k : String) : List (String × Tab) → List (String × Tab)
  | [] => []
  | p :: rest => if p.1 = k then rest else p :: dictRemove k rest

/-- Python `d.get(k)` / `d[k]` lookup. -/
def dictFind (k : String) : List (String × Tab) → Option Tab
  | [] => none
  | p :: rest => if p.1 = k then some p.2 else dictFind k rest

/-- Python `k in d`. -/
def dictContains (k : String) (l : List (String × Tab)) : Bool :=
  (dictFind k l).isSome

/-- Python truthiness of `url or "about:blank"`: `None` and `""` both
fall back to the default. -/
def orBlank : Option String → String
  | some s => if s = "" then "about:blank" else s
  | none => "about:blank"

/-- Python truthiness of an optional string (`if not tab_id`). -/
def strFalsy : Option String → Bool
  | none => true
  | some s => s = ""

/-- Python `s.startswith(pre)`: a prefix check on the character lists
(equivalent to `String.startsWith`, but reducible by the kernel on
concrete strings). -/
def startswith (s pre : String) : Bool := pre.data.isPrefixOf s.data

/-- `TabManager.new_tab` (src/server.py lines 21-26). -/
def TabManager.new_tab (m : TabManager) (url : Option String) : String × TabManager :=
  let counter := m.counter + 1
  let tab_id := tabId counter
  let u := orBlank url
  (tab_id, { tabs := dictInsert tab_id ⟨u, [u], []⟩ m.tabs, counter := counter })

/-- `TabManager.close_tab` (src/server.py lines 28-33). -/
def TabManager.close_tab (m : TabManager) (tab_id : String) : Except String TabManager :=
  if dictContains tab_id m.tabs then
    .ok { m with tabs := dictRemove tab_id m.tabs }
  else
    .error ("Unknown tab: " ++ tab_id)

/-- `TabManager.list_tabs` (src/server.py lines 35-36). -/
def TabManager.list_tabs (m : TabManager) : List String :=
  m.tabs.map Prod.fst

/-- `TabManager.get` (src/server.py lines 38-41). -/
def TabManager.get (m : TabManager) (tab_id : String) : Except String Tab :=
  match dictFind tab_id m.tabs with
  | some tab => .ok tab
  | none => .error ("Unknown tab: " ++ tab_id)

/-! ### Tool handlers

Each `@app.tool` coroutine mutates the module-level `TAB_MANAGER`; here it
is a function of the manager returning the result value and the new
manager. In-place mutation of a tab obtained from `get` is modelled by
writing the updated tab back with `dictInsert` (same key, same position). -/

/-- `navigate_page` (src/server.py lines 49-59). -/
def navigate_page (url : String) (tab_id : Option String) (m : TabManager) :
    Except String (Value × TabManager) :=
  if !startswith url "http" then
    .error "URL must start with http or https"
  else
    let (tid, m1) := if strFalsy tab_id then m.new_tab none else (tab_id.getD "", m)
    match m1.get tid with
    | .error e => .error e
    | .ok tab =>
      let tab2 : Tab := { tab with url := url, history := tab.history ++ [url] }
      .ok (.dict [("tab_id", .str tid), ("url", .str url)],
        { m1 with tabs := dictInsert tid tab2 m1.tabs })

/-- `fill_form` (src/server.py lines 62-67). -/
def fill_form (selectors_to_values : List (String × String)) (tab_id : String)
    (m : TabManager) : Except String (Value × TabManager) :=
  match m.get tab_id with
  | .error e => .error e
  | .ok tab =>
    let tab2 : Tab := { tab with forms := tab.forms ++ [selectors_to_values] }
    .ok (.dict [("status", .str "filled"), ("count", .nat selectors_to_values.length)],
      { m with tabs := dictInsert tab_id tab2 m.tabs })

/-- `click_element` (src/server.py lines 70-73). -/
def click_element (selector : String) (tab_id : String) (m : TabManager) :
    Except String (Value × TabManager) :=
  match m.get tab_id with
  | .error e => .error e
  | .ok _ => .ok (.dict [("status", .str "clicked"), ("selector", .str selector)], m)

/-- `extract_data` (src/server.py lines 76-81). -/
def extract_data (selectors : List String) (tab_id : String) (m : TabManager) :
    Except String (Value × TabManager) :=
  match m.get tab_id with
  | .error e => .error e
  | .ok _ =>
    .ok (.dict [("data", .dict (selectors.map fun sel => (sel, .str "")))], m)

/-- `capture_screenshot` (src/server.py lines 84-89). -/
def capture_screenshot (tab_id : String) (full_page : Bool) (m : TabManager) :
    Except String (Value × TabManager) :=
  match m.get tab_id with
  | .error e => .error e
  | .ok _ =>
    .ok (.dict [("path", .str ("screenshots/" ++ tab_id ++ ".png")),
      ("full_page", .bool full_page)], m)

/-- `generate_pdf` (src/server.py lines 92-96). -/
def generate_pdf (tab_id : String) (landscape : Bool) (m : TabManager) :
    Except String (Value × TabManager) :=
  match m.get tab_id with
  | .error e => .error e
  | .ok _ =>
    .ok (.dict [("path", .str ("pdf/" ++ tab_id ++ ".pdf")),
      ("landscape", .bool landscape)], m)

/-- Tool `new_tab` (src/server.py lines 99-101). -/
def new_tab (url : Option String) (m : TabManager) : Except String (Value × TabManager) :=
  let (tab_id, m1) := m.new_tab url
  match m1.get tab_id with
  | .error e => .error e
  | .ok tab => .ok (.dict [("tab_id", .str tab_id), ("url", .str tab.url)], m1)

/-- Tool `close_tab` (src/server.py lines 104-106). -/
def close_tab (tab_id : String) (m : TabManager) : Except String (Value × TabManager) :=
  match m.close_tab tab_id with
  | .error e => .error e
  | .ok m1 => .ok (.dict [("status", .str "closed"), ("tab_id", .str tab_id)], m1)

/-- Tool `list_tabs` (src/server.py lines 109-110). -/
def list_tabs (m : TabManager) : Except String (Value × TabManager) :=
  .ok (.dict [("tabs", .vlist (m.list_tabs.map Value.str))], m)

/-- `go_back` (src/server.py lines 113-120). After the `pop` the history
has length ≥ 1, so `history[-1]` is its last element; `getLastD` with a
junk default is total and agrees on non-empty lists. -/
def go_back (tab_id : String) (m : TabManager) : Except String (Value × TabManager) :=
  match m.get tab_id with
  | .error e => .error e
  | .ok tab =>
    if tab.history.length < 2 then
      .error "No history to go back to"
    else
      let history2 := tab.history.dropLast
      let tab2 : Tab := { tab with url := history2.getLastD "", history := history2 }
      .ok (.dict [("tab_id", .str tab_id), ("url", .str tab2.url)],
        { m with tabs := dictInsert tab_id tab2 m.tabs })

/-! ### Workflow executor -/

/-- Typed keyword-argument bags for `app.run_tool(tool, **params)`, one
constructor per registered tool. A bag whose shape does not match the
named tool's signature makes the dynamic call raise, which `run_workflow`
records as a step failure; the same holds for an unknown tool name.
A nested `run_workflow` step is not modelled. -/
inductive ToolParams where
  | navigatePage (url : String) (tab_id : Option String)
  | fillForm (selectors_to_values : List (String × String)) (tab_id : String)
  | clickElement (selector : String) (tab_id : String)
  | extractData (selectors : List String) (tab_id : String)
  | captureScreenshot (tab_id : String) (full_page : Bool)
  | generatePdf (tab_id : String) (landscape : Bool)
  | newTab (url : Option String)
  | closeTab (tab_id : String)
  | listTabs
  | goBack (tab_id : String)

/-- `app.run_tool(tool, **params)`: dispatch by registered tool name. -/
def run_tool (tool : String) (params : ToolParams) (m : TabManager) :
    Except String (Value × TabManager) :=
  match tool, params with
  | "navigate_page", .navigatePage url tab_id => navigate_page url tab_id m
  | "fill_form", .fillForm s t => fill_form s t m
  | "click_element", .clickElement s t => click_element s t m
  | "extract_data", .extractData s t => extract_data s t m
  | "capture_screenshot", .captureScreenshot t f => capture_screenshot t f m
  | "generate_pdf", .generatePdf t l => generate_pdf t l m
  | "new_tab", .newTab u => new_tab u m
  | "close_tab", .closeTab t => close_tab t m
  | "list_tabs", .listTabs => list_tabs m
  | "go_back", .goBack t => go_back t m
  | t, _ => .error ("Tool dispatch failed: " ++ t)

/-- One workflow step dict: `tool := step.get("tool")` (absent key gives
`none`) and the parameter bag `step.get("params", \x7b\x7d)`. -/
structure WfStep where
  tool : Option String
  params : ToolParams

/-- A record appended to `results` (src/server.py lines 132 and 135):
`{"step": idx, "tool": tool, "result": result}` on success,
`{"step": idx, "error": str(e)}` on failure — the failure record carries
no `"tool"` key. -/
inductive StepRecord where
  | success (step : Nat) (tool : String) (result : Value)
  | failure (step : Nat) (error : String)

/-- A single-quote character, for reproducing the source's error text. -/
def sq : String := String.singleton (Char.ofNat 39)

/-- The message of `MCPError("Step missing 'tool'")` (src/server.py line 130). -/
def missingToolMsg : String := "Step missing " ++ sq ++ "tool" ++ sq

/-- The loop of `run_workflow` with `idx` threading `enumerate(steps, start=1)`.
On a failure the handler has not mutated the manager (every handler raises
before mutating), so the pre-step manager is returned. -/
def run_workflow_aux : List WfStep → Nat → TabManager → List StepRecord × TabManager
  | [], _, m => ([], m)
  | s :: rest, idx, m =>
    if strFalsy s.tool then
      ([.failure idx missingToolMsg], m)
    else
      match run_tool (s.tool.getD "") s.params m with
      | .ok (result, m2) =>
        (.success idx (s.tool.getD "") result :: (run_workflow_aux rest (idx + 1) m2).1,
          (run_workflow_aux rest (idx + 1) m2).2)
      | .error e => ([.failure idx e], m)

/-- `run_workflow` (src/server.py lines 122-137); the returned list is the
`results` value of the `{"results": results}` payload. -/
def run_workflow (steps : List WfStep) (m : TabManager) :
    List StepRecord × TabManager :=
  run_workflow_aux steps 1 m

/-! ### Observations and the transition system

External clients drive the server by tool invocations; `runAction`
executes one invocation (the handler applied to its arguments), and
`stepState` is the resulting registry state — unchanged on failure, which
is faithful because every handler raises before its first mutation of
`TAB_MANAGER`. -/

/-- Execute one tool invocation against the registry. -/
def runAction : ToolParams → TabManager → Except String (Value × TabManager)
  | .navigatePage url tab_id, m => navigate_page url tab_id m
  | .fillForm s t, m => fill_form s t m
  | .clickElement s t, m => click_element s t m
  | .extractData s t, m => extract_data s t m
  | .captureScreenshot t f, m => capture_screenshot t f m
  | .generatePdf t l, m => generate_pdf t l m
  | .newTab u, m => new_tab u m
  | .closeTab t, m => close_tab t m
  | .listTabs, m => list_tabs m
  | .goBack t, m => go_back t m

/-- Registry state after one invocation (unchanged when the handler raises). -/
def stepState (a : ToolParams) (m : TabManager) : TabManager :=
  match runAction a m with
  | .ok (_, m2) => m2
  | .error _ => m

/-- Registry state after a sequence of invocations. -/
def runActions : List ToolParams → TabManager → TabManager
  | [], m => m
  | a :: rest, m => runActions rest (stepState a m)

/-- States reachable from the freshly started server. -/
inductive Reachable : TabManager → Prop where
  | init : Reachable TabManager.init
  | step (a : ToolParams) {m : TabManager} : Reachable m → Reachable (stepState a m)

/-- The `tab_id` entry of a result dict. -/
def resultTabId : Value → Option String
  | .dict l =>
    match l.lookup "tab_id" with
    | some (.str s) => some s
    | _ => none
  | _ => none

/-- The identifier returned by a session-creating call: a `new_tab` tool
call, or a `navigate_page` call whose `tab_id` argument is falsy (absent or
empty), which makes the handler allocate a fresh tab. `none` when the call
is not session-creating or fails. -/
def createdId (a : ToolParams) (m : TabManager) : Option String :=
  match a with
  | .newTab u =>
    (match new_tab u m with
     | .ok (v, _) => resultTabId v
     | .error _ => none)
  | .navigatePage url tid =>
    if strFalsy tid then
      match navigate_page url tid m with
      | .ok (v, _) => resultTabId v
      | .error _ => none
    else none
  | _ => none

/-- All identifiers returned by session-creating calls along a run. -/
def createdIds : List ToolParams → TabManager → List String
  | [], _ => []
  | a :: rest, m => (createdId a m).toList ++ createdIds rest (stepState a m)

/-- 1-based index carried by a step record (`"step"` key). -/
def StepRecord.stepIdx : StepRecord → Nat
  | .success i _ _ => i
  | .failure i _ => i

/-- Whether a record is a success record (carries a `"result"` key). -/
def StepRecord.isSuccess : StepRecord → Bool
  | .success _ _ _ => true
  | .failure _ _ => false

/-- The `"tool"` entry of a record: present on success records only
(src/server.py lines 132 and 135). -/
def StepRecord.toolName? : StepRecord → Option String
  | .success _ t _ => some t
  | .failure _ _ => none

/-- Whether every step of a workflow run succeeds (mirrors the branch
structure of `run_workflow_aux`). -/
def allOk : List WfStep → TabManager → Bool
  | [], _ => true
  | s :: rest, m =>
    if strFalsy s.tool then false
    else
      match run_tool (s.tool.getD "") s.params m with
      | .ok (_, m2) => allOk rest m2
      | .error _ => false

/-- Per-tab invariant checked over the whole registry: the history is
non-empty and the current url is its last entry. -/
def TabManager.historyInvariant (m : TabManager) : Bool :=
  m.tabs.all fun p => !p.2.history.isEmpty && (p.2.history.getLast? == some p.2.url)

/-! ### Dictionary lemmas -/

theorem dictFind_dictInsert_self (k : String) (v : Tab) (l : List (String × Tab)) :
    dictFind k (dictInsert k v l) = some v := by
  induction l with
  | nil => simp [dictInsert, dictFind]
  | cons p rest ih =>
    by_cases h : p.1 = k
    · simp [dictInsert, dictFind, h]
    · simp [dictInsert, dictFind, h, ih]

theorem dictFind_dictInsert_ne (k k' : String) (h : k' ≠ k) (v : Tab)
    (l : List (String × Tab)) : dictFind k' (dictInsert k v l) = dictFind k' l := by
  have hk : ¬ (k = k') := fun hh => h hh.symm
  induction l with
  | nil => simp [dictInsert, dictFind, hk]
  | cons p rest ih =>
    by_cases hp : p.1 = k
    · have hp' : ¬ (p.1 = k') := by rw [hp]; exact hk
      simp [dictInsert, dictFind, hp, hk, hp']
    · simp [dictInsert, dictFind, hp, ih]

theorem mem_dictInsert (p : String × Tab) (k : String) (v : Tab)
    (l : List (String × Tab)) : p ∈ dictInsert k v l → p = (k, v) ∨ p ∈ l := by
  induction l with
  | nil => simp [dictInsert]
  | cons q rest ih =>
    by_cases h : q.1 = k
    · simp only [dictInsert, h, if_true, List.mem_cons]
      rintro (h1 | h1)
      · exact Or.inl h1
      · exact Or.inr (Or.inr h1)
    · simp only [dictInsert, h, if_false, List.mem_cons]
      rintro (h1 | h1)
      · exact Or.inr (Or.inl h1)
      · rcases ih h1 with h2 | h2
        · exact Or.inl h2
        · exact Or.inr (Or.inr h2)

theorem dictRemove_sublist (k : String) (l : List (String × Tab)) :
    List.Sublist (dictRemove k l) l := by
  induction l with
  | nil => simp [dictRemove]
  | cons p rest ih =>
    by_cases h : p.1 = k
    · simp only [dictRemove, h, if_true]
      exact List.sublist_cons_self p rest
    · simpa [dictRemove, h] using List.Sublist.cons₂ p ih

theorem mem_dictRemove (p : String × Tab) (k : String) (l : List (String × Tab)) :
    p ∈ dictRemove k l → p ∈ l :=
  fun h => (dictRemove_sublist k l).mem h

theorem dictFind_some_mem (k : String) (l : List (String × Tab)) (t : Tab) :
    dictFind k l = some t → (k, t) ∈ l := by
  induction l with
  | nil => simp [dictFind]
  | cons p rest ih =>
    by_cases h : p.1 = k
    · simp only [dictFind, h, if_true, Option.some.injEq]
      rintro rfl
      subst h
      exact List.mem_cons_self p rest
    · simp only [dictFind, h, if_false]
      exact fun h1 => List.mem_cons_of_mem p (ih h1)

theorem dictFind_isSome_iff (k : String) (l : List (String × Tab)) :
    (dictFind k l).isSome = true ↔ k ∈ l.map Prod.fst := by
  induction l with
  | nil => simp [dictFind]
  | cons p rest ih =>
    by_cases h : p.1 = k
    · simp [dictFind, h]
    · have h' : ¬ (k = p.1) := fun hh => h hh.symm
      simp [dictFind, h, h', ih]

theorem dictFind_eq_none_iff (k : String) (l : List (String × Tab)) :
    dictFind k l = none ↔ k ∉ l.map Prod.fst := by
  rw [← dictFind_isSome_iff]
  cases dictFind k l <;> simp

theorem keys_dictInsert_of_mem (k : String) (v : Tab) (l : List (String × Tab))
    (h : k ∈ l.map Prod.fst) :
    (dictInsert k v l).map Prod.fst = l.map Prod.fst := by
  induction l with
  | nil => simp at h
  | cons p rest ih =>
    by_cases hp : p.1 = k
    · simp [dictInsert, hp]
    · have : k ∈ rest.map Prod.fst := by
        simp only [List.map_cons, List.mem_cons] at h
        rcases h with h | h
        · exact absurd h.symm hp
        · exact h
      simp [dictInsert, hp, ih this]

theorem keys_dictInsert_of_not_mem (k : String) (v : Tab) (l : List (String × Tab))
    (h : k ∉ l.map Prod.fst) :
    (dictInsert k v l).map Prod.fst = l.map Prod.fst ++ [k] := by
  induction l with
  | nil => simp [dictInsert]
  | cons p rest ih =>
    have hp : p.1 ≠ k := by
      intro hh
      exact h (by simp [hh])
    have : k ∉ rest.map Prod.fst := by
      intro hh
      exact h (by simp [hh])
    simp [dictInsert, hp, ih this]

theorem nodup_keys_dictInsert (k : String) (v : Tab) (l : List (String × Tab))
    (h : (l.map Prod.fst).Nodup) :
    ((dictInsert k v l).map Prod.fst).Nodup := by
  by_cases hk : k ∈ l.map Prod.fst
  · rw [keys_dictInsert_of_mem k v l hk]
    exact h
  · rw [keys_dictInsert_of_not_mem k v l hk]
    refine List.Nodup.append h (List.nodup_singleton k) ?_
    intro a ha hb
    simp only [List.mem_singleton] at hb
    subst hb
    exact hk ha

theorem nodup_keys_dictRemove (k : String) (l : List (String × Tab))
    (h : (l.map Prod.fst).Nodup) :
    ((dictRemove k l).map Prod.fst).Nodup :=
  ((dictRemove_sublist k l).map Prod.fst).nodup h

theorem dictFind_dictRemove_self (k : String) (l : List (String × Tab))
    (h : (l.map Prod.fst).Nodup) :
    dictFind k (dictRemove k l) = none := by
  induction l with
  | nil => simp [dictRemove, dictFind]
  | cons p rest ih =>
    simp only [List.map_cons, List.nodup_cons] at h
    by_cases hp : p.1 = k
    · simp only [dictRemove, hp, if_true]
      rw [dictFind_eq_none_iff]
      exact hp ▸ h.1
    · simp [dictRemove, dictFind, hp, ih h.2]

theorem dictInsert_dictInsert (k : String) (v1 v2 : Tab) (l : List (String × Tab)) :
    dictInsert k v2 (dictInsert k v1 l) = dictInsert k v2 l := by
  induction l with
  | nil => simp [dictInsert]
  | cons p rest ih =>
    by_cases h : p.1 = k
    · simp [dictInsert, h]
    · simp [dictInsert, h, ih]

theorem getLast?_of_ne_nil {α : Type} (l : List α) (d : α) (h : l ≠ []) :
    l.getLast? = some (l.getLastD d) := by
  rw [List.getLastD_eq_getLast?, List.getLast?_eq_getLast l h]
  rfl

/-! ### Handler equations

Closed forms of each handler on its branches, used throughout. -/

theorem new_tab_eq (m : TabManager) (u : Option String) :
    m.new_tab u = (tabId (m.counter + 1),
      { tabs := dictInsert (tabId (m.counter + 1)) ⟨orBlank u, [orBlank u], []⟩ m.tabs,
        counter := m.counter + 1 }) := rfl

theorem new_tab_tool_eq (u : Option String) (m : TabManager) :
    new_tab u m = .ok (.dict [("tab_id", .str (tabId (m.counter + 1))),
      ("url", .str (orBlank u))], (m.new_tab u).2) := by
  unfold new_tab
  rw [new_tab_eq]
  simp [TabManager.get, dictFind_dictInsert_self]

theorem strFalsy_some_eq_false (s : String) (h : s ≠ "") : strFalsy (some s) = false := by
  simp [strFalsy, h]

theorem navigate_page_invalid (url : String) (tid : Option String) (m : TabManager)
    (h : startswith url "http" = false) :
    navigate_page url tid m = .error "URL must start with http or https" := by
  unfold navigate_page
  simp [h]

theorem navigate_page_fresh_eq (url : String) (tid : Option String) (m : TabManager)
    (h : startswith url "http" = true) (ht : strFalsy tid = true) :
    navigate_page url tid m
      = .ok (.dict [("tab_id", .str (tabId (m.counter + 1))), ("url", .str url)],
          { tabs := dictInsert (tabId (m.counter + 1)) ⟨url, ["about:blank", url], []⟩ m.tabs,
            counter := m.counter + 1 }) := by
  unfold navigate_page
  rw [new_tab_eq]
  simp only [h, ht, Bool.not_true, Bool.false_eq_true, if_false, if_true]
  simp [TabManager.get, dictFind_dictInsert_self, dictInsert_dictInsert, orBlank]

theorem navigate_page_existing_eq (url id : String) (m : TabManager) (tab : Tab)
    (h : startswith url "http" = true) (hid : id ≠ "")
    (htab : dictFind id m.tabs = some tab) :
    navigate_page url (some id) m
      = .ok (.dict [("tab_id", .str id), ("url", .str url)],
          { m with tabs :=
            dictInsert id { tab with url := url, history := tab.history ++ [url] } m.tabs }) := by
  unfold navigate_page
  have hf : strFalsy (some id) = false := strFalsy_some_eq_false id hid
  simp only [h, hf, Bool.not_true, Bool.false_eq_true, if_false, Option.getD_some]
  simp [TabManager.get, htab]

theorem navigate_page_notfound (url id : String) (m : TabManager)
    (h : startswith url "http" = true) (hid : id ≠ "")
    (htab : dictFind id m.tabs = none) :
    navigate_page url (some id) m = .error ("Unknown tab: " ++ id) := by
  unfold navigate_page
  have hf : strFalsy (some id) = false := strFalsy_some_eq_false id hid
  simp only [h, hf, Bool.not_true, Bool.false_eq_true, if_false, Option.getD_some]
  simp [TabManager.get, htab]

theorem fill_form_eq (s : List (String × String)) (id : String) (m : TabManager)
    (tab : Tab) (htab : dictFind id m.tabs = some tab) :
    fill_form s id m
      = .ok (.dict [("status", .str "filled"), ("count", .nat s.length)],
          { m with tabs := dictInsert id { tab with forms := tab.forms ++ [s] } m.tabs }) := by
  unfold fill_form
  simp [TabManager.get, htab]

theorem fill_form_notfound (s : List (String × String)) (id : String) (m : TabManager)
    (htab : dictFind id m.tabs = none) :
    fill_form s id m = .error ("Unknown tab: " ++ id) := by
  unfold fill_form
  simp [TabManager.get, htab]

theorem go_back_notfound (id : String) (m : TabManager)
    (htab : dictFind id m.tabs = none) :
    go_back id m = .error ("Unknown tab: " ++ id) := by
  unfold go_back
  simp [TabManager.get, htab]

theorem go_back_short (id : String) (m : TabManager) (tab : Tab)
    (htab : dictFind id m.tabs = some tab) (hlen : tab.history.length < 2) :
    go_back id m = .error "No history to go back to" := by
  unfold go_back
  simp [TabManager.get, htab, hlen]

theorem go_back_ok (id : String) (m : TabManager) (tab : Tab)
    (htab : dictFind id m.tabs = some tab) (hlen : 2 ≤ tab.history.length) :
    go_back id m
      = .ok (.dict [("tab_id", .str id), ("url", .str (tab.history.dropLast.getLastD ""))],
          TabManager.mk (dictInsert id
            ⟨tab.history.dropLast.getLastD "", tab.history.dropLast, tab.forms⟩ m.tabs)
            m.counter) := by
  unfold go_back
  have : ¬ tab.history.length < 2 := by omega
  simp [TabManager.get, htab, this]

theorem close_tab_tool_ok (id : String) (m : TabManager)
    (h : dictContains id m.tabs = true) :
    close_tab id m = .ok (.dict [("status", .str "closed"), ("tab_id", .str id)],
      { m with tabs := dictRemove id m.tabs }) := by
  unfold close_tab TabManager.close_tab
  simp [h]

theorem close_tab_tool_notfound (id : String) (m : TabManager)
    (h : dictContains id m.tabs = false) :
    close_tab id m = .error ("Unknown tab: " ++ id) := by
  unfold close_tab TabManager.close_tab
  simp [h]

/-! ### State-transition equations for each invocation -/

theorem stepState_click (s t : String) (m : TabManager) :
    stepState (.clickElement s t) m = m := by
  cases h : m.get t <;> simp [stepState, runAction, click_element, h]

theorem stepState_extract (s : List String) (t : String) (m : TabManager) :
    stepState (.extractData s t) m = m := by
  cases h : m.get t <;> simp [stepState, runAction, extract_data, h]

theorem stepState_capture (t : String) (f : Bool) (m : TabManager) :
    stepState (.captureScreenshot t f) m = m := by
  cases h : m.get t <;> simp [stepState, runAction, capture_screenshot, h]

theorem stepState_pdf (t : String) (f : Bool) (m : TabManager) :
    stepState (.generatePdf t f) m = m := by
  cases h : m.get t <;> simp [stepState, runAction, generate_pdf, h]

theorem stepState_listTabs (m : TabManager) :
    stepState .listTabs m = m := by
  simp [stepState, runAction, list_tabs]

theorem stepState_newTab (u : Option String) (m : TabManager) :
    stepState (.newTab u) m = (m.new_tab u).2 := by
  simp [stepState, runAction, new_tab_tool_eq]

theorem stepState_closeTab_ok (t : String) (m : TabManager)
    (h : dictContains t m.tabs = true) :
    stepState (.closeTab t) m = { m with tabs := dictRemove t m.tabs } := by
  simp [stepState, runAction, close_tab_tool_ok t m h]

theorem stepState_closeTab_notfound (t : String) (m : TabManager)
    (h : dictContains t m.tabs = false) :
    stepState (.closeTab t) m = m := by
  simp [stepState, runAction, close_tab_tool_notfound t m h]

theorem stepState_fillForm_notfound (s : List (String × String)) (t : String)
    (m : TabManager) (h : dictFind t m.tabs = none) :
    stepState (.fillForm s t) m = m := by
  simp [stepState, runAction, fill_form_notfound s t m h]

theorem stepState_fillForm_ok (s : List (String × String)) (t : String)
    (m : TabManager) (tab : Tab) (h : dictFind t m.tabs = some tab) :
    stepState (.fillForm s t) m
      = { m with tabs := dictInsert t { tab with forms := tab.forms ++ [s] } m.tabs } := by
  simp [stepState, runAction, fill_form_eq s t m tab h]

theorem stepState_navigate_invalid (url : String) (tid : Option String)
    (m : TabManager) (h : startswith url "http" = false) :
    stepState (.navigatePage url tid) m = m := by
  simp [stepState, runAction, navigate_page_invalid url tid m h]

theorem stepState_navigate_fresh (url : String) (tid : Option String) (m : TabManager)
    (h : startswith url "http" = true) (ht : strFalsy tid = true) :
    stepState (.navigatePage url tid) m
      = { tabs := dictInsert (tabId (m.counter + 1)) ⟨url, ["about:blank", url], []⟩ m.tabs,
          counter := m.counter + 1 } := by
  simp [stepState, runAction, navigate_page_fresh_eq url tid m h ht]

theorem stepState_navigate_existing (url id : String) (m : TabManager) (tab : Tab)
    (h : startswith url "http" = true) (hid : id ≠ "")
    (htab : dictFind id m.tabs = some tab) :
    stepState (.navigatePage url (some id)) m
      = { m with tabs :=
          dictInsert id { tab with url := url, history := tab.history ++ [url] } m.tabs } := by
  simp [stepState, runAction, navigate_page_existing_eq url id m tab h hid htab]

theorem stepState_navigate_notfound (url id : String) (m : TabManager)
    (h : startswith url "http" = true) (hid : id ≠ "")
    (htab : dictFind id m.tabs = none) :
    stepState (.navigatePage url (some id)) m = m := by
  simp [stepState, runAction, navigate_page_notfound url id m h hid htab]

theorem stepState_goBack_notfound (id : String) (m : TabManager)
    (htab : dictFind id m.tabs = none) :
    stepState (.goBack id) m = m := by
  simp [stepState, runAction, go_back_notfound id m htab]

theorem stepState_goBack_short (id : String) (m : TabManager) (tab : Tab)
    (htab : dictFind id m.tabs = some tab) (hlen : tab.history.length < 2) :
    stepState (.goBack id) m = m := by
  simp [stepState, runAction, go_back_short id m tab htab hlen]

theorem stepState_goBack_ok (id : String) (m : TabManager) (tab : Tab)
    (htab : dictFind id m.tabs = some tab) (hlen : 2 ≤ tab.history.length) :
    stepState (.goBack id) m
      = TabManager.mk (dictInsert id
          ⟨tab.history.dropLast.getLastD "", tab.history.dropLast, tab.forms⟩ m.tabs)
          m.counter := by
  simp [stepState, runAction, go_back_ok id m tab htab hlen]

/-! ### The reachable-state invariant -/

/-- Invariant of every reachable registry state: every key is `tab-{i}`
with `1 ≤ i ≤ counter`, keys are distinct, and every tab has a non-empty
history whose last element is the tab's current url. -/
structure Inv (m : TabManager) : Prop where
  keys_tabId : ∀ p ∈ m.tabs, ∃ i, p.1 = tabId i ∧ 1 ≤ i ∧ i ≤ m.counter
  keys_nodup : (m.tabs.map Prod.fst).Nodup
  tabs_ok : ∀ p ∈ m.tabs, p.2.history ≠ [] ∧ p.2.history.getLast? = some p.2.url

theorem inv_init : Inv TabManager.init := by
  constructor <;> simp [TabManager.init]

theorem mem_keys_dictInsert (k k0 : String) (v : Tab) (l : List (String × Tab)) :
    k ∈ (dictInsert k0 v l).map Prod.fst → k = k0 ∨ k ∈ l.map Prod.fst := by
  intro h
  rcases List.mem_map.1 h with ⟨p, hp, hk⟩
  rcases mem_dictInsert p k0 v l hp with h1 | h1
  · left
    rw [← hk, h1]
  · right
    rw [← hk]
    exact List.mem_map_of_mem Prod.fst h1

theorem inv_update {m : TabManager} (h : Inv m) (id : String) (tab2 : Tab)
    (hid : id ∈ m.tabs.map Prod.fst)
    (hok : tab2.history ≠ [] ∧ tab2.history.getLast? = some tab2.url) :
    Inv ⟨dictInsert id tab2 m.tabs, m.counter⟩ := by
  constructor
  · intro p hp
    rcases mem_dictInsert p id tab2 m.tabs hp with h1 | h1
    · rcases List.mem_map.1 hid with ⟨q, hq, hq1⟩
      rcases h.keys_tabId q hq with ⟨i, hi1, hi2, hi3⟩
      refine ⟨i, ?_, hi2, hi3⟩
      rw [h1]
      show id = tabId i
      rw [← hq1]
      exact hi1
    · exact h.keys_tabId p h1
  · exact nodup_keys_dictInsert id tab2 m.tabs h.keys_nodup
  · intro p hp
    rcases mem_dictInsert p id tab2 m.tabs hp with h1 | h1
    · rw [h1]
      exact hok
    · exact h.tabs_ok p h1

theorem inv_insert_fresh {m : TabManager} (h : Inv m) (tab : Tab)
    (hok : tab.history ≠ [] ∧ tab.history.getLast? = some tab.url) :
    Inv ⟨dictInsert (tabId (m.counter + 1)) tab m.tabs, m.counter + 1⟩ := by
  constructor
  · intro p hp
    rcases mem_dictInsert p (tabId (m.counter + 1)) tab m.tabs hp with h1 | h1
    · exact ⟨m.counter + 1, by rw [h1], by omega, Nat.le_refl _⟩
    · rcases h.keys_tabId p h1 with ⟨i, hi1, hi2, hi3⟩
      exact ⟨i, hi1, hi2, Nat.le_succ_of_le hi3⟩
  · exact nodup_keys_dictInsert _ _ _ h.keys_nodup
  · intro p hp
    rcases mem_dictInsert p (tabId (m.counter + 1)) tab m.tabs hp with h1 | h1
    · rw [h1]
      exact hok
    · exact h.tabs_ok p h1

theorem inv_remove {m : TabManager} (h : Inv m) (id : String) :
    Inv ⟨dictRemove id m.tabs, m.counter⟩ := by
  constructor
  · intro p hp
    exact h.keys_tabId p (mem_dictRemove p id m.tabs hp)
  · exact nodup_keys_dictRemove id m.tabs h.keys_nodup
  · intro p hp
    exact h.tabs_ok p (mem_dictRemove p id m.tabs hp)

/-- Every invocation either leaves the registry unchanged, inserts a fresh
well-formed tab under the next counter key, rewrites an existing key to a
well-formed tab, or removes a key; the counter moves accordingly. -/
theorem stepState_shape (a : ToolParams) (m : TabManager) (h : Inv m) :
    stepState a m = m
    ∨ (∃ tab : Tab, (tab.history ≠ [] ∧ tab.history.getLast? = some tab.url) ∧
        stepState a m = ⟨dictInsert (tabId (m.counter + 1)) tab m.tabs, m.counter + 1⟩)
    ∨ (∃ id tab2, id ∈ m.tabs.map Prod.fst ∧
        (tab2.history ≠ [] ∧ tab2.history.getLast? = some tab2.url) ∧
        stepState a m = ⟨dictInsert id tab2 m.tabs, m.counter⟩)
    ∨ (∃ id, stepState a m = ⟨dictRemove id m.tabs, m.counter⟩) := by
  cases a with
  | navigatePage url tid =>
    by_cases hu : startswith url "http"
    · by_cases ht : strFalsy tid
      · refine Or.inr (Or.inl ⟨⟨url, ["about:blank", url], []⟩, ⟨by simp, by simp⟩, ?_⟩)
        exact stepState_navigate_fresh url tid m hu ht
      · match tid, ht with
        | some id, ht =>
          have hid : id ≠ "" := by
            intro hh
            exact ht (by simp [strFalsy, hh])
          cases htab : dictFind id m.tabs with
          | none => exact Or.inl (stepState_navigate_notfound url id m hu hid htab)
          | some tab =>
            refine Or.inr (Or.inr (Or.inl ⟨id,
              { tab with url := url, history := tab.history ++ [url] },
              (dictFind_isSome_iff id m.tabs).1 (by rw [htab]; rfl), ⟨by simp, ?_⟩, ?_⟩))
            · simp [List.getLast?_concat]
            · exact stepState_navigate_existing url id m tab hu hid htab
    · exact Or.inl (stepState_navigate_invalid url tid m (by simpa using hu))
  | fillForm s t =>
    cases htab : dictFind t m.tabs with
    | none => exact Or.inl (stepState_fillForm_notfound s t m htab)
    | some tab =>
      refine Or.inr (Or.inr (Or.inl ⟨t, { tab with forms := tab.forms ++ [s] },
        (dictFind_isSome_iff t m.tabs).1 (by rw [htab]; rfl), ?_, ?_⟩))
      · exact h.tabs_ok (t, tab) (dictFind_some_mem t m.tabs tab htab)
      · exact stepState_fillForm_ok s t m tab htab
  | clickElement s t => exact Or.inl (stepState_click s t m)
  | extractData s t => exact Or.inl (stepState_extract s t m)
  | captureScreenshot t f => exact Or.inl (stepState_capture t f m)
  | generatePdf t f => exact Or.inl (stepState_pdf t f m)
  | listTabs => exact Or.inl (stepState_listTabs m)
  | newTab u =>
    refine Or.inr (Or.inl ⟨⟨orBlank u, [orBlank u], []⟩, ⟨by simp, by simp⟩, ?_⟩)
    rw [stepState_newTab, new_tab_eq]
  | closeTab t =>
    by_cases hc : dictContains t m.tabs
    · exact Or.inr (Or.inr (Or.inr ⟨t, stepState_closeTab_ok t m hc⟩))
    · exact Or.inl (stepState_closeTab_notfound t m (by simpa using hc))
  | goBack t =>
    cases htab : dictFind t m.tabs with
    | none => exact Or.inl (stepState_goBack_notfound t m htab)
    | some tab =>
      by_cases hlen : tab.history.length < 2
      · exact Or.inl (stepState_goBack_short t m tab htab hlen)
      · have hlen2 : 2 ≤ tab.history.length := by omega
        have hne : tab.history.dropLast ≠ [] := by
          apply List.ne_nil_of_length_pos
          rw [List.length_dropLast]
          omega
        refine Or.inr (Or.inr (Or.inl ⟨t,
          ⟨tab.history.dropLast.getLastD "", tab.history.dropLast, tab.forms⟩,
          (dictFind_isSome_iff t m.tabs).1 (by rw [htab]; rfl),
          ⟨hne, getLast?_of_ne_nil tab.history.dropLast "" hne⟩, ?_⟩))
        exact stepState_goBack_ok t m tab htab hlen2

theorem inv_stepState (a : ToolParams) {m : TabManager} (h : Inv m) :
    Inv (stepState a m) := by
  rcases stepState_shape a m h with h1 | ⟨tab, hok, h1⟩ | ⟨id, tab2, hid, hok, h1⟩ | ⟨id, h1⟩
  · rw [h1]; exact h
  · rw [h1]; exact inv_insert_fresh h tab hok
  · rw [h1]; exact inv_update h id tab2 hid hok
  · rw [h1]; exact inv_remove h id

theorem inv_reachable {m : TabManager} (h : Reachable m) : Inv m := by
  induction h with
  | init => exact inv_init
  | step a _ ih => exact inv_stepState a ih

theorem counter_stepState (a : ToolParams) (m : TabManager) (h : Inv m) :
    m.counter ≤ (stepState a m).counter := by
  rcases stepState_shape a m h with h1 | ⟨tab, _, h1⟩ | ⟨id, tab2, _, _, h1⟩ | ⟨id, h1⟩
  · rw [h1]
  · rw [h1]
    exact Nat.le_succ m.counter
  · rw [h1]
  · rw [h1]

theorem keys_stepState (a : ToolParams) (m : TabManager) (h : Inv m) (k : String) :
    k ∈ (stepState a m).tabs.map Prod.fst →
      k ∈ m.tabs.map Prod.fst ∨ k = tabId (m.counter + 1) := by
  intro hk
  rcases stepState_shape a m h with h1 | ⟨tab, _, h1⟩ | ⟨id, tab2, hid, _, h1⟩ | ⟨id, h1⟩
  · rw [h1] at hk
    exact Or.inl hk
  · rw [h1] at hk
    rcases mem_keys_dictInsert k _ tab m.tabs hk with h2 | h2
    · exact Or.inr h2
    · exact Or.inl h2
  · rw [h1] at hk
    rcases mem_keys_dictInsert k id tab2 m.tabs hk with h2 | h2
    · exact Or.inl (h2 ▸ hid)
    · exact Or.inl h2
  · rw [h1] at hk
    exact Or.inl (((dictRemove_sublist id m.tabs).map Prod.fst).subset hk)

/-! ### Session-creating calls and identifier freshness -/

theorem createdId_newTab (u : Option String) (m : TabManager) :
    createdId (.newTab u) m = some (tabId (m.counter + 1)) := by
  simp [createdId, new_tab_tool_eq, resultTabId, List.lookup]

theorem createdId_navigate_fresh (url : String) (tid : Option String) (m : TabManager)
    (hu : startswith url "http" = true) (ht : strFalsy tid = true) :
    createdId (.navigatePage url tid) m = some (tabId (m.counter + 1)) := by
  simp [createdId, ht, navigate_page_fresh_eq url tid m hu ht, resultTabId, List.lookup]

theorem createdId_navigate_invalid (url : String) (tid : Option String) (m : TabManager)
    (hu : startswith url "http" = false) :
    createdId (.navigatePage url tid) m = none := by
  simp [createdId, navigate_page_invalid url tid m hu]

theorem createdId_some (a : ToolParams) (m : TabManager) (s : String)
    (h : createdId a m = some s) :
    s = tabId (m.counter + 1) ∧ (stepState a m).counter = m.counter + 1 := by
  cases a with
  | newTab u =>
    rw [createdId_newTab] at h
    obtain rfl := Option.some.inj h
    refine ⟨rfl, ?_⟩
    rw [stepState_newTab, new_tab_eq]
  | navigatePage url tid =>
    by_cases ht : strFalsy tid
    · by_cases hu : startswith url "http"
      · rw [createdId_navigate_fresh url tid m hu ht] at h
        obtain rfl := Option.some.inj h
        refine ⟨rfl, ?_⟩
        rw [stepState_navigate_fresh url tid m hu ht]
      · rw [createdId_navigate_invalid url tid m (by simpa using hu)] at h
        simp at h
    · simp [createdId, ht] at h
  | fillForm s t => simp [createdId] at h
  | clickElement s t => simp [createdId] at h
  | extractData s t => simp [createdId] at h
  | captureScreenshot t f => simp [createdId] at h
  | generatePdf t f => simp [createdId] at h
  | closeTab t => simp [createdId] at h
  | listTabs => simp [createdId] at h
  | goBack t => simp [createdId] at h

theorem createdIds_gt (acts : List ToolParams) :
    ∀ (m : TabManager), Inv m → ∀ s ∈ createdIds acts m,
      ∃ i, m.counter < i ∧ s = tabId i := by
  induction acts with
  | nil => simp [createdIds]
  | cons a rest ih =>
    intro m hm s hs
    simp only [createdIds, List.mem_append] at hs
    rcases hs with hs | hs
    · have hsome : createdId a m = some s := by
        cases hco : createdId a m with
        | none =>
          rw [hco] at hs
          simp [Option.toList] at hs
        | some x =>
          rw [hco] at hs
          simp only [Option.toList, List.mem_singleton] at hs
          rw [hs]
      rcases createdId_some a m s hsome with ⟨h1, _⟩
      exact ⟨m.counter + 1, Nat.lt_succ_self _, h1⟩
    · rcases ih (stepState a m) (inv_stepState a hm) s hs with ⟨i, hi1, hi2⟩
      exact ⟨i, lt_of_le_of_lt (counter_stepState a m hm) hi1, hi2⟩

theorem createdIds_pairwise (acts : List ToolParams) :
    ∀ m, Inv m → (createdIds acts m).Pairwise (fun x y => x ≠ y) := by
  induction acts with
  | nil =>
    intro m _
    simp [createdIds]
  | cons a rest ih =>
    intro m hm
    simp only [createdIds]
    cases hco : createdId a m with
    | none =>
      simp only [Option.toList, List.nil_append]
      exact ih (stepState a m) (inv_stepState a hm)
    | some s =>
      simp only [Option.toList, List.singleton_append]
      rw [List.pairwise_cons]
      constructor
      · intro b hb heq
        rcases createdIds_gt rest (stepState a m) (inv_stepState a hm) b hb with ⟨i, hi1, hi2⟩
        rcases createdId_some a m s hco with ⟨h1, h2⟩
        rw [h2] at hi1
        have : m.counter + 1 = i := tabId_injective ((h1.symm.trans heq).trans hi2)
        omega
      · exact ih (stepState a m) (inv_stepState a hm)

/-! ### Workflow executor lemmas -/

theorem run_workflow_aux_length (steps : List WfStep) :
    ∀ idx m, (run_workflow_aux steps idx m).1.length ≤ steps.length := by
  induction steps with
  | nil =>
    intro idx m
    simp [run_workflow_aux]
  | cons s rest ih =>
    intro idx m
    cases ht : strFalsy s.tool with
    | true => simp [run_workflow_aux, ht]
    | false =>
      cases hrt : run_tool (s.tool.getD "") s.params m with
      | error e => simp [run_workflow_aux, ht, hrt]
      | ok p =>
        obtain ⟨v, m2⟩ := p
        simp only [run_workflow_aux, ht, hrt, Bool.false_eq_true, if_false,
          List.length_cons, List.length_nil]
        exact Nat.succ_le_succ (ih (idx + 1) m2)

theorem run_workflow_aux_success_shape (steps : List WfStep) :
    ∀ idx m k (hk : k < (run_workflow_aux steps idx m).1.length)
      (hk2 : k < steps.length),
      ((run_workflow_aux steps idx m).1[k]).isSuccess = true →
      ∃ v, (run_workflow_aux steps idx m).1[k]
        = .success (idx + k) ((steps[k]).tool.getD "") v := by
  induction steps with
  | nil =>
    intro idx m k hk
    simp [run_workflow_aux] at hk
  | cons s rest ih =>
    intro idx m k hk hk2 hsucc
    cases ht : strFalsy s.tool with
    | true =>
      simp only [run_workflow_aux, ht, if_true, List.length_singleton] at hk
      have hk0 : k = 0 := by omega
      subst hk0
      simp [run_workflow_aux, ht, StepRecord.isSuccess] at hsucc
    | false =>
      cases hrt : run_tool (s.tool.getD "") s.params m with
      | error e =>
        simp only [run_workflow_aux, ht, hrt, Bool.false_eq_true, if_false,
          List.length_singleton] at hk
        have hk0 : k = 0 := by omega
        subst hk0
        simp [run_workflow_aux, ht, hrt, StepRecord.isSuccess] at hsucc
      | ok p =>
        obtain ⟨v, m2⟩ := p
        cases k with
        | zero =>
          refine ⟨v, ?_⟩
          simp [run_workflow_aux, ht, hrt]
        | succ k' =>
          have hk' : k' < (run_workflow_aux rest (idx + 1) m2).1.length := by
            simp only [run_workflow_aux, ht, hrt, Bool.false_eq_true, if_false,
              List.length_cons] at hk
            omega
          have hk2' : k' < rest.length := by
            simp only [List.length_cons] at hk2
            omega
          have hsucc' : ((run_workflow_aux rest (idx + 1) m2).1[k']).isSuccess = true := by
            simp only [run_workflow_aux, ht, hrt, Bool.false_eq_true, if_false,
              List.getElem_cons_succ] at hsucc
            exact hsucc
          obtain ⟨w, hw⟩ := ih (idx + 1) m2 k' hk' hk2' hsucc'
          refine ⟨w, ?_⟩
          simp only [run_workflow_aux, ht, hrt, Bool.false_eq_true, if_false,
            List.getElem_cons_succ]
          rw [hw]
          have harith : idx + 1 + k' = idx + (k' + 1) := by omega
          rw [harith]

theorem run_workflow_aux_failure_shape (steps : List WfStep) :
    ∀ idx m k (hk : k < (run_workflow_aux steps idx m).1.length),
      ((run_workflow_aux steps idx m).1[k]).isSuccess = false →
      ∃ e, (run_workflow_aux steps idx m).1[k] = .failure (idx + k) e := by
  induction steps with
  | nil =>
    intro idx m k hk
    simp [run_workflow_aux] at hk
  | cons s rest ih =>
    intro idx m k hk hfail
    cases ht : strFalsy s.tool with
    | true =>
      simp only [run_workflow_aux, ht, if_true, List.length_singleton] at hk
      have hk0 : k = 0 := by omega
      subst hk0
      exact ⟨missingToolMsg, by simp [run_workflow_aux, ht]⟩
    | false =>
      cases hrt : run_tool (s.tool.getD "") s.params m with
      | error e =>
        simp only [run_workflow_aux, ht, hrt, Bool.false_eq_true, if_false,
          List.length_singleton] at hk
        have hk0 : k = 0 := by omega
        subst hk0
        exact ⟨e, by simp [run_workflow_aux, ht, hrt]⟩
      | ok p =>
        obtain ⟨v, m2⟩ := p
        cases k with
        | zero =>
          simp [run_workflow_aux, ht, hrt, StepRecord.isSuccess] at hfail
        | succ k' =>
          have hk' : k' < (run_workflow_aux rest (idx + 1) m2).1.length := by
            simp only [run_workflow_aux, ht, hrt, Bool.false_eq_true, if_false,
              List.length_cons] at hk
            omega
          have hfail' : ((run_workflow_aux rest (idx + 1) m2).1[k']).isSuccess = false := by
            simp only [run_workflow_aux, ht, hrt, Bool.false_eq_true, if_false,
              List.getElem_cons_succ] at hfail
            exact hfail
          obtain ⟨e, he⟩ := ih (idx + 1) m2 k' hk' hfail'
          refine ⟨e, ?_⟩
          simp only [run_workflow_aux, ht, hrt, Bool.false_eq_true, if_false,
            List.getElem_cons_succ]
          rw [he]
          have harith : idx + 1 + k' = idx + (k' + 1) := by omega
          rw [harith]

theorem run_workflow_aux_allOk (steps : List WfStep) :
    ∀ idx m, allOk steps m = true →
      (run_workflow_aux steps idx m).1.length = steps.length ∧
      ∀ k (hk : k < (run_workflow_aux steps idx m).1.length) (hk2 : k < steps.length),
        ∃ v, (run_workflow_aux steps idx m).1[k]
          = .success (idx + k) ((steps[k]).tool.getD "") v := by
  induction steps with
  | nil =>
    intro idx m _
    constructor
    · simp [run_workflow_aux]
    · intro k hk
      simp [run_workflow_aux] at hk
  | cons s rest ih =>
    intro idx m hall
    cases ht : strFalsy s.tool with
    | true => simp [allOk, ht] at hall
    | false =>
      cases hrt : run_tool (s.tool.getD "") s.params m with
      | error e => simp [allOk, ht, hrt] at hall
      | ok p =>
        obtain ⟨v, m2⟩ := p
        have hall2 : allOk rest m2 = true := by
          simpa [allOk, ht, hrt] using hall
        obtain ⟨ihlen, ihget⟩ := ih (idx + 1) m2 hall2
        constructor
        · simp [run_workflow_aux, ht, hrt, ihlen]
        · intro k hk hk2
          cases k with
          | zero =>
            refine ⟨v, ?_⟩
            simp [run_workflow_aux, ht, hrt]
          | succ k' =>
            have hk' : k' < (run_workflow_aux rest (idx + 1) m2).1.length := by
              simp only [run_workflow_aux, ht, hrt, Bool.false_eq_true, if_false,
                List.length_cons] at hk
              omega
            have hk2' : k' < rest.length := by
              simp only [List.length_cons] at hk2
              omega
            obtain ⟨w, hw⟩ := ihget k' hk' hk2'
            refine ⟨w, ?_⟩
            simp only [run_workflow_aux, ht, hrt, Bool.false_eq_true, if_false,
              List.getElem_cons_succ]
            rw [hw]
            have harith : idx + 1 + k' = idx + (k' + 1) := by omega
            rw [harith]

theorem run_workflow_aux_failure (steps : List WfStep) :
    ∀ idx m, allOk steps m = false →
      ∃ j, j < steps.length
        ∧ (run_workflow_aux steps idx m).1.length = j + 1
        ∧ allOk (List.take j steps) m = true
        ∧ (∀ hk : j < (run_workflow_aux steps idx m).1.length,
            ((run_workflow_aux steps idx m).1[j]).isSuccess = false)
        ∧ run_workflow_aux steps idx m = run_workflow_aux (List.take (j + 1) steps) idx m := by
  induction steps with
  | nil =>
    intro idx m h
    simp [allOk] at h
  | cons s rest ih =>
    intro idx m hall
    cases ht : strFalsy s.tool with
    | true =>
      refine ⟨0, by simp, by simp [run_workflow_aux, ht], by simp [allOk], ?_, ?_⟩
      · intro hk
        simp [run_workflow_aux, ht, StepRecord.isSuccess]
      · simp [run_workflow_aux, ht]
    | false =>
      cases hrt : run_tool (s.tool.getD "") s.params m with
      | error e =>
        refine ⟨0, by simp, by simp [run_workflow_aux, ht, hrt], by simp [allOk], ?_, ?_⟩
        · intro hk
          simp [run_workflow_aux, ht, hrt, StepRecord.isSuccess]
        · simp [run_workflow_aux, ht, hrt]
      | ok p =>
        obtain ⟨v, m2⟩ := p
        have hall2 : allOk rest m2 = false := by
          simpa [allOk, ht, hrt] using hall
        obtain ⟨j, hj1, hj2, hj3, hj4, hj5⟩ := ih (idx + 1) m2 hall2
        refine ⟨j + 1, by simpa using Nat.succ_lt_succ hj1, ?_, ?_, ?_, ?_⟩
        · simp [run_workflow_aux, ht, hrt, hj2]
        · simp [List.take_succ_cons, allOk, ht, hrt, hj3]
        · intro hk
          have hk' : j < (run_workflow_aux rest (idx + 1) m2).1.length := by
            rw [hj2]
            omega
          have := hj4 hk'
          simp only [run_workflow_aux, ht, hrt, Bool.false_eq_true, if_false,
            List.getElem_cons_succ]
          exact this
        · simp only [List.take_succ_cons]
          simp only [run_workflow_aux, ht, hrt, Bool.false_eq_true, if_false]
          rw [hj5]

theorem run_workflow_aux_init_success (steps : List WfStep) :
    ∀ idx m k (hk : k < (run_workflow_aux steps idx m).1.length),
      k + 1 < (run_workflow_aux steps idx m).1.length →
      ((run_workflow_aux steps idx m).1[k]).isSuccess = true := by
  induction steps with
  | nil =>
    intro idx m k hk
    simp [run_workflow_aux] at hk
  | cons s rest ih =>
    intro idx m k hk hk1
    cases ht : strFalsy s.tool with
    | true =>
      simp only [run_workflow_aux, ht, if_true, List.length_singleton] at hk1
      omega
    | false =>
      cases hrt : run_tool (s.tool.getD "") s.params m with
      | error e =>
        simp only [run_workflow_aux, ht, hrt, Bool.false_eq_true, if_false,
          List.length_singleton] at hk1
        omega
      | ok p =>
        obtain ⟨v, m2⟩ := p
        cases k with
        | zero => simp [run_workflow_aux, ht, hrt, StepRecord.isSuccess]
        | succ k' =>
          have hk' : k' < (run_workflow_aux rest (idx + 1) m2).1.length := by
            simp only [run_workflow_aux, ht, hrt, Bool.false_eq_true, if_false,
              List.length_cons] at hk
            omega
          have hk1' : k' + 1 < (run_workflow_aux rest (idx + 1) m2).1.length := by
            simp only [run_workflow_aux, ht, hrt, Bool.false_eq_true, if_false,
              List.length_cons] at hk1
            omega
          have := ih (idx + 1) m2 k' hk' hk1'
          simp only [run_workflow_aux, ht, hrt, Bool.false_eq_true, if_false,
            List.getElem_cons_succ]
          exact this

theorem run_workflow_aux_stepIdx (steps : List WfStep) (idx : Nat) (m : TabManager)
    (k : Nat) (hk : k < (run_workflow_aux steps idx m).1.length)
    (hk2 : k < steps.length) :
    ((run_workflow_aux steps idx m).1[k]).stepIdx = idx + k := by
  cases hs : ((run_workflow_aux steps idx m).1[k]).isSuccess with
  | true =>
    obtain ⟨v, hv⟩ := run_workflow_aux_success_shape steps idx m k hk hk2 hs
    rw [hv]
    rfl
  | false =>
    obtain ⟨e, he⟩ := run_workflow_aux_failure_shape steps idx m k hk hs
    rw [he]
    rfl

/-! ### Persistence of closed identifiers -/

/-- The `NotFound` message and the `InvalidArgument` message are distinct
(they differ at the second character). -/
theorem unknown_tab_msg_ne (id : String) :
    ("Unknown tab: " ++ id) ≠ "URL must start with http or https" := by
  intro h
  have h2 : (("Unknown tab: " ++ id).data).get? 1 = some 'n' := by
    rw [String.data_append]
    rfl
  rw [h] at h2
  have h3 : (some 'R' : Option Char) = some 'n' := h2
  simp at h3

/-- Once an identifier of the form `tab-{k}` with `k ≤ counter` is absent,
no later invocation can bring it back: fresh tabs always take the key
`tab-{counter+1}` and the counter never decreases. -/
theorem dictFind_runActions_none (acts : List ToolParams) :
    ∀ (m : TabManager) (id : String) (k : Nat), Inv m →
      dictFind id m.tabs = none → id = tabId k → k ≤ m.counter →
      dictFind id (runActions acts m).tabs = none := by
  induction acts with
  | nil =>
    intro m id k hm hfind hid hk
    exact hfind
  | cons a rest ih =>
    intro m id k hm hfind hid hk
    refine ih (stepState a m) id k (inv_stepState a hm) ?_ hid
      (le_trans hk (counter_stepState a m hm))
    rw [dictFind_eq_none_iff]
    intro hmem
    rcases keys_stepState a m hm id hmem with h1 | h1
    · rw [dictFind_eq_none_iff] at hfind
      exact hfind h1
    · have hkc : k = m.counter + 1 := tabId_injective (hid.symm.trans h1)
      omega

/-! ### The claims -/

/-- C1: for every sequence of session-creating calls (`new_tab`, or
`navigate_page` without a session identifier) issued against the freshly
started registry — interleaved arbitrarily with the other tool calls — the
returned session identifiers are pairwise distinct for the lifetime of the
registry; in particular an identifier is never handed out again after its
session is closed. -/
theorem claim_C1_created_ids_distinct (acts : List ToolParams) :
    (createdIds acts TabManager.init).Pairwise (fun x y => x ≠ y) :=
  createdIds_pairwise acts TabManager.init inv_init

/-- Modelled from the spec: "`location` must be a well-formed absolute
address with scheme http or https" — an address whose scheme is literally
`http` or `https`, i.e. it starts with `http://` or `https://` and has a
non-empty remainder. -/
def specWellFormedHttpUrl (url : String) : Bool :=
  (startswith url "http://" && decide (7 < url.length))
    || (startswith url "https://" && decide (8 < url.length))

/-- C4 fails as stated: `"httpx://example.com"` has scheme `httpx`, not
http or https, so the claim requires `navigate_page` to fail with
`InvalidArgument` on it — but the code only checks the literal prefix
`"http"`, accepts the address, and even creates a session. -/
theorem claim_C4_counterexample :
    specWellFormedHttpUrl "httpx://example.com" = false
    ∧ navigate_page "httpx://example.com" none TabManager.init
      = .ok (.dict [("tab_id", .str "tab-1"), ("url", .str "httpx://example.com")],
          ⟨[("tab-1", ⟨"httpx://example.com", ["about:blank", "httpx://example.com"], []⟩)], 1⟩) :=
  ⟨rfl, rfl⟩

/-- C4 (amended): `navigate_page` fails with the `InvalidArgument` error
exactly when the location does not start with the literal prefix `"http"` —
a strictly weaker test than well-formedness — and on such a failure the
registry is unchanged, so no session is created or mutated. -/
theorem claim_C4_url_check (url : String) (tab_id : Option String) (m : TabManager) :
    (navigate_page url tab_id m = .error "URL must start with http or https"
      ↔ startswith url "http" = false)
    ∧ (startswith url "http" = false → stepState (.navigatePage url tab_id) m = m) := by
  constructor
  · constructor
    · intro h
      cases hu : startswith url "http" with
      | false => rfl
      | true =>
        exfalso
        cases ht : strFalsy tab_id with
        | true =>
          rw [navigate_page_fresh_eq url tab_id m hu ht] at h
          exact Except.noConfusion h
        | false =>
          match tab_id, ht with
          | some id, ht =>
            have hid : id ≠ "" := by
              intro hh
              rw [hh] at ht
              simp [strFalsy] at ht
            cases htab : dictFind id m.tabs with
            | none =>
              rw [navigate_page_notfound url id m hu hid htab] at h
              have := Except.error.inj h
              exact unknown_tab_msg_ne id this
            | some tab =>
              rw [navigate_page_existing_eq url id m tab hu hid htab] at h
              exact Except.noConfusion h
    · intro hu
      exact navigate_page_invalid url tab_id m hu
  · intro hu
    exact stepState_navigate_invalid url tab_id m hu

/-- C4 witness: at the rejected address `"ftp://x"` the handler fails with
the `InvalidArgument` message and the registry is untouched. -/
theorem claim_C4_witness :
    (navigate_page "ftp://x" none TabManager.init
        = .error "URL must start with http or https"
      ↔ startswith "ftp://x" "http" = false)
    ∧ (startswith "ftp://x" "http" = false →
        stepState (.navigatePage "ftp://x" none) TabManager.init = TabManager.init) :=
  claim_C4_url_check "ftp://x" none TabManager.init

/-- C5: navigating an open session to a location the check accepts appends
that location to the session's history and makes it the current location
(the registry keeps the session under its identifier, counter unchanged). -/
theorem claim_C5_navigate_appends (m : TabManager) (id : String) (tab : Tab)
    (url : String) (hurl : startswith url "http" = true) (hid : id ≠ "")
    (htab : dictFind id m.tabs = some tab) :
    navigate_page url (some id) m
      = .ok (.dict [("tab_id", .str id), ("url", .str url)],
          ⟨dictInsert id { tab with url := url, history := tab.history ++ [url] } m.tabs,
            m.counter⟩)
    ∧ dictFind id
        (dictInsert id { tab with url := url, history := tab.history ++ [url] } m.tabs)
      = some { tab with url := url, history := tab.history ++ [url] } :=
  ⟨navigate_page_existing_eq url id m tab hurl hid htab,
    dictFind_dictInsert_self id _ m.tabs⟩

/-- C5 witness: a concrete navigation of `tab-1` from `https://a` to
`https://b` appends to the history. -/
theorem claim_C5_witness :
    navigate_page "https://b" (some "tab-1")
        (⟨[("tab-1", ⟨"https://a", ["https://a"], []⟩)], 1⟩ : TabManager)
      = .ok (.dict [("tab_id", .str "tab-1"), ("url", .str "https://b")],
          ⟨dictInsert "tab-1"
              ⟨"https://b", ["https://a"] ++ ["https://b"], []⟩
              [("tab-1", ⟨"https://a", ["https://a"], []⟩)],
            1⟩)
    ∧ dictFind "tab-1"
        (dictInsert "tab-1"
          ⟨"https://b", ["https://a"] ++ ["https://b"], []⟩
          [("tab-1", ⟨"https://a", ["https://a"], []⟩)])
      = some ⟨"https://b", ["https://a"] ++ ["https://b"], []⟩ :=
  claim_C5_navigate_appends ⟨[("tab-1", ⟨"https://a", ["https://a"], []⟩)], 1⟩
    "tab-1" ⟨"https://a", ["https://a"], []⟩ "https://b" rfl (by decide) rfl

/-- C6: `go_back` on a session whose history has exactly one entry fails
with the `InvalidState` error and leaves the registry unchanged; with at
least two entries it removes exactly the most recent entry and sets the
current location to the new last entry of the history. -/
theorem claim_C6_go_back (m : TabManager) (id : String) (tab : Tab)
    (htab : dictFind id m.tabs = some tab) :
    (tab.history.length = 1 →
      go_back id m = .error "No history to go back to"
      ∧ stepState (.goBack id) m = m)
    ∧ (2 ≤ tab.history.length →
      go_back id m
        = .ok (.dict [("tab_id", .str id),
              ("url", .str (tab.history.dropLast.getLastD ""))],
            TabManager.mk (dictInsert id
              ⟨tab.history.dropLast.getLastD "", tab.history.dropLast, tab.forms⟩ m.tabs)
              m.counter)
      ∧ tab.history.dropLast.length = tab.history.length - 1
      ∧ tab.history = tab.history.dropLast ++ [tab.history.getLastD ""]
      ∧ tab.history.dropLast.getLast? = some (tab.history.dropLast.getLastD "")) := by
  constructor
  · intro hlen
    refine ⟨go_back_short id m tab htab (by omega), ?_⟩
    exact stepState_goBack_short id m tab htab (by omega)
  · intro hlen
    have hne : tab.history ≠ [] := by
      apply List.ne_nil_of_length_pos
      omega
    have hne2 : tab.history.dropLast ≠ [] := by
      apply List.ne_nil_of_length_pos
      rw [List.length_dropLast]
      omega
    refine ⟨go_back_ok id m tab htab hlen, List.length_dropLast tab.history, ?_, ?_⟩
    · have h1 := List.dropLast_append_getLast hne
      have h2 : tab.history.getLast hne = tab.history.getLastD "" := by
        have h3 := getLast?_of_ne_nil tab.history "" hne
        have h4 := List.getLast?_eq_getLast tab.history hne
        rw [h4] at h3
        exact Option.some.inj h3
      rw [← h2]
      exact h1.symm
    · exact getLast?_of_ne_nil tab.history.dropLast "" hne2

/-- C6 witness: a session at `["https://a", "https://b"]` goes back to
`https://a`; a session at `["https://a"]` fails. -/
theorem claim_C6_witness :
    (go_back "tab-1"
        (⟨[("tab-1", ⟨"https://b", ["https://a", "https://b"], []⟩)], 1⟩ : TabManager)
      = .ok (.dict [("tab_id", .str "tab-1"),
            ("url", .str (["https://a", "https://b"].dropLast.getLastD ""))],
          TabManager.mk (dictInsert "tab-1"
            ⟨["https://a", "https://b"].dropLast.getLastD "",
              ["https://a", "https://b"].dropLast, []⟩
            [("tab-1", ⟨"https://b", ["https://a", "https://b"], []⟩)])
            1)
      ∧ (["https://a", "https://b"].dropLast.length : Nat)
          = (["https://a", "https://b"].length : Nat) - 1
      ∧ ["https://a", "https://b"]
          = ["https://a", "https://b"].dropLast ++ [["https://a", "https://b"].getLastD ""]
      ∧ ["https://a", "https://b"].dropLast.getLast?
          = some (["https://a", "https://b"].dropLast.getLastD ""))
    ∧ (go_back "tab-2"
        (⟨[("tab-2", ⟨"https://a", ["https://a"], []⟩)], 2⟩ : TabManager)
      = .error "No history to go back to"
      ∧ stepState (.goBack "tab-2")
          (⟨[("tab-2", ⟨"https://a", ["https://a"], []⟩)], 2⟩ : TabManager)
        = (⟨[("tab-2", ⟨"https://a", ["https://a"], []⟩)], 2⟩ : TabManager)) :=
  ⟨(claim_C6_go_back ⟨[("tab-1", ⟨"https://b", ["https://a", "https://b"], []⟩)], 1⟩
      "tab-1" ⟨"https://b", ["https://a", "https://b"], []⟩ rfl).2 (by decide),
    (claim_C6_go_back ⟨[("tab-2", ⟨"https://a", ["https://a"], []⟩)], 2⟩
      "tab-2" ⟨"https://a", ["https://a"], []⟩ rfl).1 (by decide)⟩

/-- C8 fails as stated at `loc = ""`: Python's `url or "about:blank"`
treats the empty string as falsy, so `open("")` yields a session whose
current location is `"about:blank"`, not the requested `loc`. -/
theorem claim_C8_counterexample :
    new_tab (some "") TabManager.init
      = .ok (.dict [("tab_id", .str "tab-1"), ("url", .str "about:blank")],
          ⟨[("tab-1", ⟨"about:blank", ["about:blank"], []⟩)], 1⟩)
    ∧ "about:blank" ≠ "" :=
  ⟨rfl, by decide⟩

/-- C8 (amended): after `open(loc)` with a non-empty initial location, the
new session's current location is `loc` and its history is `[loc]`; an
empty (or absent) location falls back to the default `"about:blank"`. -/
theorem claim_C8_open_initializes (loc : String) (m : TabManager) (hloc : loc ≠ "") :
    new_tab (some loc) m
      = .ok (.dict [("tab_id", .str (tabId (m.counter + 1))), ("url", .str loc)],
          ⟨dictInsert (tabId (m.counter + 1)) ⟨loc, [loc], []⟩ m.tabs, m.counter + 1⟩)
    ∧ dictFind (tabId (m.counter + 1))
        (dictInsert (tabId (m.counter + 1)) ⟨loc, [loc], []⟩ m.tabs)
      = some ⟨loc, [loc], []⟩
    ∧ new_tab (some "") m
      = .ok (.dict [("tab_id", .str (tabId (m.counter + 1))), ("url", .str "about:blank")],
          ⟨dictInsert (tabId (m.counter + 1)) ⟨"about:blank", ["about:blank"], []⟩ m.tabs,
            m.counter + 1⟩) := by
  refine ⟨?_, dictFind_dictInsert_self _ _ m.tabs, ?_⟩
  · rw [new_tab_tool_eq, new_tab_eq]
    simp [orBlank, hloc]
  · rw [new_tab_tool_eq, new_tab_eq]
    simp [orBlank]

/-- C8 witness: opening `https://example.com` on the fresh registry seeds
the history with exactly that location. -/
theorem claim_C8_witness :
    new_tab (some "https://example.com") TabManager.init
      = .ok (.dict [("tab_id", .str (tabId 1)), ("url", .str "https://example.com")],
          ⟨dictInsert (tabId 1) ⟨"https://example.com", ["https://example.com"], []⟩ [], 1⟩)
    ∧ dictFind (tabId 1)
        (dictInsert (tabId 1) ⟨"https://example.com", ["https://example.com"], []⟩ [])
      = some ⟨"https://example.com", ["https://example.com"], []⟩
    ∧ new_tab (some "") TabManager.init
      = .ok (.dict [("tab_id", .str (tabId 1)), ("url", .str "about:blank")],
          ⟨dictInsert (tabId 1) ⟨"about:blank", ["about:blank"], []⟩ [], 1⟩) :=
  claim_C8_open_initializes "https://example.com" TabManager.init (by decide)

/-- C9: in every reachable registry state — after any sequence of built-in
tool invocations starting from the fresh server — every open session has a
non-empty history whose last element equals the session's current location. -/
theorem claim_C9_history_invariant (m : TabManager) (hm : Reachable m) :
    m.historyInvariant = true := by
  have h := inv_reachable hm
  unfold TabManager.historyInvariant
  rw [List.all_eq_true]
  intro p hp
  obtain ⟨h1, h2⟩ := h.tabs_ok p hp
  rcases hist : p.2.history with _ | ⟨a, l⟩
  · exact absurd hist h1
  · rw [hist] at h2
    simp [h2]

/-- C9 witness: the invariant holds in the concrete state reached by an
implicit navigation on the fresh server. -/
theorem claim_C9_witness :
    (stepState (.navigatePage "https://a" none) TabManager.init).historyInvariant = true :=
  claim_C9_history_invariant _ (Reachable.step _ Reachable.init)

/-- C10: `navigate_page` with an accepted url and no session identifier
creates a session whose history is `["about:blank", url]` — the default
initial location followed by the navigated-to url — with the url as the
current location. -/
theorem claim_C10_implicit_session (url : String) (m : TabManager)
    (hurl : startswith url "http" = true) :
    navigate_page url none m
      = .ok (.dict [("tab_id", .str (tabId (m.counter + 1))), ("url", .str url)],
          ⟨dictInsert (tabId (m.counter + 1)) ⟨url, ["about:blank", url], []⟩ m.tabs,
            m.counter + 1⟩)
    ∧ dictFind (tabId (m.counter + 1))
        (dictInsert (tabId (m.counter + 1)) ⟨url, ["about:blank", url], []⟩ m.tabs)
      = some ⟨url, ["about:blank", url], []⟩ :=
  ⟨navigate_page_fresh_eq url none m hurl rfl,
    dictFind_dictInsert_self _ _ m.tabs⟩

/-- C10 witness: the concrete implicit session for `https://example.com`. -/
theorem claim_C10_witness :
    navigate_page "https://example.com" none TabManager.init
      = .ok (.dict [("tab_id", .str (tabId 1)), ("url", .str "https://example.com")],
          ⟨dictInsert (tabId 1)
            ⟨"https://example.com", ["about:blank", "https://example.com"], []⟩ [], 1⟩)
    ∧ dictFind (tabId 1)
        (dictInsert (tabId 1)
          ⟨"https://example.com", ["about:blank", "https://example.com"], []⟩ [])
      = some ⟨"https://example.com", ["about:blank", "https://example.com"], []⟩ :=
  claim_C10_implicit_session "https://example.com" TabManager.init rfl

/-- C2 fails as stated: a one-step workflow whose single step fails
(missing tool name) produces a trace whose length equals the number of
submitted steps even though the step did not succeed, so length equality
does not characterize an all-success run. -/
theorem claim_C2_counterexample :
    (run_workflow [⟨none, .listTabs⟩] TabManager.init).1.length
      = ([⟨none, .listTabs⟩] : List WfStep).length
    ∧ allOk [⟨none, .listTabs⟩] TabManager.init = false
    ∧ (run_workflow [⟨none, .listTabs⟩] TabManager.init).1.map StepRecord.isSuccess
      = [false] :=
  ⟨rfl, rfl, rfl⟩

/-- C2 (amended): the trace is never longer than the submitted steps; when
every step succeeds it has exactly one success record per step, in input
order with the submitted action names; when some step fails the trace ends
at and includes the first failing step — all earlier records are success
records in input order — and no step after the failing one is executed: the
whole run (trace and final registry state) equals the run of the prefix
ending at the failing step. (Trace length can equal the input length also
when the final step fails, so equality alone does not imply success.) -/
theorem claim_C2_trace_spec (steps : List WfStep) (m : TabManager) :
    (run_workflow steps m).1.length ≤ steps.length
    ∧ (allOk steps m = true →
        (run_workflow steps m).1.length = steps.length
        ∧ ∀ k (hk : k < (run_workflow steps m).1.length) (hk2 : k < steps.length),
            ∃ v, (run_workflow steps m).1[k]
              = .success (k + 1) ((steps[k]).tool.getD "") v)
    ∧ (allOk steps m = false →
        ∃ j, j < steps.length
          ∧ (run_workflow steps m).1.length = j + 1
          ∧ allOk (List.take j steps) m = true
          ∧ (∀ hk : j < (run_workflow steps m).1.length,
              ∃ e, (run_workflow steps m).1[j] = .failure (j + 1) e)
          ∧ (∀ k (hk : k < (run_workflow steps m).1.length)
              (hk2 : k < steps.length), k < j →
              ∃ v, (run_workflow steps m).1[k]
                = .success (k + 1) ((steps[k]).tool.getD "") v)
          ∧ run_workflow steps m = run_workflow (List.take (j + 1) steps) m) := by
  simp only [run_workflow]
  refine ⟨run_workflow_aux_length steps 1 m, ?_, ?_⟩
  · intro hall
    obtain ⟨hlen, hget⟩ := run_workflow_aux_allOk steps 1 m hall
    refine ⟨hlen, ?_⟩
    intro k hk hk2
    obtain ⟨v, hv⟩ := hget k hk hk2
    rw [Nat.add_comm 1 k] at hv
    exact ⟨v, hv⟩
  · intro hall
    obtain ⟨j, hj1, hj2, hj3, hj4, hj5⟩ := run_workflow_aux_failure steps 1 m hall
    refine ⟨j, hj1, hj2, hj3, ?_, ?_, hj5⟩
    · intro hk
      obtain ⟨e, he⟩ := run_workflow_aux_failure_shape steps 1 m j hk (hj4 hk)
      rw [Nat.add_comm 1 j] at he
      exact ⟨e, he⟩
    · intro k hk hk2 hkj
      have hsucc : ((run_workflow_aux steps 1 m).1[k]).isSuccess = true := by
        apply run_workflow_aux_init_success steps 1 m k hk
        rw [hj2]
        omega
      obtain ⟨v, hv⟩ := run_workflow_aux_success_shape steps 1 m k hk hk2 hsucc
      rw [Nat.add_comm 1 k] at hv
      exact ⟨v, hv⟩

/-- C3 fails as stated: the error record of a failing step carries no
action name — a one-step workflow invoking `go_back` on a missing tab
yields the single record `{"step": 1, "error": "Unknown tab: tab-0"}`
(src/server.py line 135 omits the `"tool"` key from error records). -/
theorem claim_C3_counterexample :
    (run_workflow [⟨some "go_back", .goBack "tab-0"⟩] TabManager.init).1
      = [.failure 1 ("Unknown tab: " ++ "tab-0")]
    ∧ (run_workflow [⟨some "go_back", .goBack "tab-0"⟩] TabManager.init).1.map
        StepRecord.toolName? = [none] :=
  ⟨rfl, rfl⟩

/-- C3 (amended): every record in a trace carries the step's 1-based index
and exactly one of a result payload or an error message; a success record
additionally carries the invoked action's name, while an error record
carries no action name at all. -/
theorem claim_C3_record_fields (steps : List WfStep) (m : TabManager) (k : Nat)
    (hk : k < (run_workflow steps m).1.length) (hk2 : k < steps.length) :
    ((run_workflow steps m).1[k]).stepIdx = k + 1
    ∧ (((run_workflow steps m).1[k]).isSuccess = true →
        ∃ v, (run_workflow steps m).1[k]
            = .success (k + 1) ((steps[k]).tool.getD "") v
          ∧ ((run_workflow steps m).1[k]).toolName?
            = some ((steps[k]).tool.getD ""))
    ∧ (((run_workflow steps m).1[k]).isSuccess = false →
        ∃ e, (run_workflow steps m).1[k] = .failure (k + 1) e
          ∧ ((run_workflow steps m).1[k]).toolName? = none) := by
  simp only [run_workflow] at hk ⊢
  refine ⟨?_, ?_, ?_⟩
  · have h := run_workflow_aux_stepIdx steps 1 m k hk hk2
    rw [Nat.add_comm 1 k] at h
    exact h
  · intro hs
    obtain ⟨v, hv⟩ := run_workflow_aux_success_shape steps 1 m k hk hk2 hs
    rw [Nat.add_comm 1 k] at hv
    refine ⟨v, hv, ?_⟩
    rw [hv]
    rfl
  · intro hs
    obtain ⟨e, he⟩ := run_workflow_aux_failure_shape steps 1 m k hk hs
    rw [Nat.add_comm 1 k] at he
    refine ⟨e, he, ?_⟩
    rw [he]
    rfl

/-- C3 witness: the record of a concrete successful one-step workflow has
index 1, the submitted tool name, and a result. -/
theorem claim_C3_witness :
    ((run_workflow [⟨some "new_tab", .newTab none⟩] TabManager.init).1.get
        ⟨0, by decide⟩).stepIdx = 0 + 1
    ∧ (((run_workflow [⟨some "new_tab", .newTab none⟩] TabManager.init).1.get
          ⟨0, by decide⟩).isSuccess = true →
        ∃ v, (run_workflow [⟨some "new_tab", .newTab none⟩] TabManager.init).1.get
              ⟨0, by decide⟩
            = .success (0 + 1)
                ((([⟨some "new_tab", .newTab none⟩] : List WfStep).get
                  ⟨0, by decide⟩).tool.getD "") v
          ∧ ((run_workflow [⟨some "new_tab", .newTab none⟩] TabManager.init).1.get
              ⟨0, by decide⟩).toolName?
            = some ((([⟨some "new_tab", .newTab none⟩] : List WfStep).get
                ⟨0, by decide⟩).tool.getD ""))
    ∧ (((run_workflow [⟨some "new_tab", .newTab none⟩] TabManager.init).1.get
          ⟨0, by decide⟩).isSuccess = false →
        ∃ e, (run_workflow [⟨some "new_tab", .newTab none⟩] TabManager.init).1.get
              ⟨0, by decide⟩ = .failure (0 + 1) e
          ∧ ((run_workflow [⟨some "new_tab", .newTab none⟩] TabManager.init).1.get
              ⟨0, by decide⟩).toolName? = none) :=
  claim_C3_record_fields [⟨some "new_tab", .newTab none⟩] TabManager.init 0
    (by decide) (by decide)

/-- C7: once `close_tab` succeeds for an identifier, in every later state —
after any sequence of tool invocations — `get` of that identifier fails
with the unknown-tab error and the identifier is absent from `list_tabs`;
closing an identifier that is not open fails with the unknown-tab error
(and, the handler raising before any mutation, leaves the registry
unchanged). -/
theorem claim_C7_close_forever (m : TabManager) (hm : Reachable m) (id : String) :
    (∀ m2, m.close_tab id = .ok m2 →
      ∀ acts : List ToolParams,
        (runActions acts m2).get id = .error ("Unknown tab: " ++ id)
        ∧ id ∉ (runActions acts m2).list_tabs)
    ∧ (dictContains id m.tabs = false →
        m.close_tab id = .error ("Unknown tab: " ++ id)
        ∧ stepState (.closeTab id) m = m) := by
  have hInv := inv_reachable hm
  constructor
  · intro m2 hclose acts
    have hcases : dictContains id m.tabs = true
        ∧ m2 = ⟨dictRemove id m.tabs, m.counter⟩ := by
      unfold TabManager.close_tab at hclose
      by_cases hc : dictContains id m.tabs
      · refine ⟨hc, ?_⟩
        rw [if_pos hc] at hclose
        exact (Except.ok.inj hclose).symm
      · rw [if_neg hc] at hclose
        exact Except.noConfusion hclose
    obtain ⟨hc, rfl⟩ := hcases
    have hsome : (dictFind id m.tabs).isSome = true := hc
    cases hf : dictFind id m.tabs with
    | none =>
      rw [hf] at hsome
      simp at hsome
    | some tab =>
      have hmem := dictFind_some_mem id m.tabs tab hf
      obtain ⟨k, hk1, _, hk3⟩ := hInv.keys_tabId (id, tab) hmem
      have hInv2 : Inv ⟨dictRemove id m.tabs, m.counter⟩ := inv_remove hInv id
      have hfind2 : dictFind id (dictRemove id m.tabs) = none :=
        dictFind_dictRemove_self id m.tabs hInv.keys_nodup
      have hnone := dictFind_runActions_none acts ⟨dictRemove id m.tabs, m.counter⟩
        id k hInv2 hfind2 hk1 hk3
      constructor
      · simp [TabManager.get, hnone]
      · unfold TabManager.list_tabs
        rw [dictFind_eq_none_iff] at hnone
        exact hnone
  · intro hc
    constructor
    · unfold TabManager.close_tab
      rw [if_neg (by simp [hc])]
    · exact stepState_closeTab_notfound id m hc

/-- C7 witness: after closing `tab-1` in a reachable one-tab state, a
subsequent `new_tab` call does not bring `tab-1` back — `get` fails and it
is not listed. -/
theorem claim_C7_witness :
    (runActions [.newTab none] (⟨[], 1⟩ : TabManager)).get "tab-1"
      = .error ("Unknown tab: " ++ "tab-1")
    ∧ "tab-1" ∉ (runActions [.newTab none] (⟨[], 1⟩ : TabManager)).list_tabs :=
  (claim_C7_close_forever (stepState (.newTab none) TabManager.init)
    (Reachable.step _ Reachable.init) "tab-1").1 ⟨[], 1⟩ rfl [.newTab none]

end WebAuto
